import Mathlib

/-!
Shallow embedding of the graph-compilation pipeline and its cache from
`python/paddle/base/compiler.py` (CompiledProgram, IpuDynamicPatcher,
IpuStrategy, IpuCompiledProgram), together with theorems settling the
spec claims about it.

Python dictionaries are modelled as association lists keyed by strings,
Python lists as Lean lists, and in-place mutation as explicit state
passing.  Code external to this file (the C++ `core` module: passes,
the underlying `core.IpuStrategy` option store, `core.Graph`
construction) is modelled either by opaque function parameters or by
definitions whose doc comment starts `Modelled from the spec:`.
-/

namespace PaddleCompiler

/-- Variable type tag of a `VarDesc`; `RAW` is the raw/untyped kind
(`core.VarDesc.VarType.RAW`). -/
inductive VarType where
  | RAW
  | LOD_TENSOR
  | SELECTED_ROWS
  | FEED_MINIBATCH
  | FETCH_LIST
  deriving DecidableEq, Repr

/-- A variable descriptor: name, persistable flag, type tag, the
distributed marker consulted by `_should_broadcast_or_not_exists`
(covering both the `_is_distributed` and `is_distributed` attributes),
and the `need_check_feed` flag. -/
structure VarDesc where
  name : String
  persistable : Bool
  varType : VarType
  is_distributed : Bool
  need_check_feed : Bool
  deriving DecidableEq, Repr

/-- An operator descriptor: its type tag (such as "feed" or "fetch")
and the `is_target` flag on its desc. -/
structure OpDesc where
  type : String
  is_target : Bool
  deriving DecidableEq, Repr

/-- A block of a linear program: an ordered operator list and the
name-keyed variable table (names assumed unique, as in the source's
block var dict). -/
structure Block where
  ops : List OpDesc
  vars : List VarDesc
  deriving Repr

/-- A linear program: its global block and, when present, the name of
the learning-rate variable bound by an attached `lr_scheduler`. -/
structure Program where
  globalBlock : Block
  lr_scheduler : Option String
  deriving Repr

/-- A graph node: an operator node (whose `op()` may be null) or a
value node carrying its `name()` and its `var()` descriptor (which may
be null). -/
inductive Node where
  | opNode (o : Option OpDesc)
  | varNode (name : String) (v : Option VarDesc)
  deriving DecidableEq, Repr

/-- A graph: a container of nodes, iterated in insertion order by
`graph.nodes()`. -/
structure Graph where
  nodes : List Node
  deriving Repr

/-- Look a variable up by name in a block's var table
(`block.vars.get(var_name, None)`). -/
def Block.getVar (b : Block) (name : String) : Option VarDesc :=
  b.vars.find? (fun v => v.name == name)

/-- Embeds `_should_broadcast_or_not_exists(program, var_name)`: true
when the variable is absent from the global block, or present but not
marked distributed. -/
def _should_broadcast_or_not_exists (program : Program) (var_name : String) : Bool :=
  match program.globalBlock.getVar var_name with
  | none => true
  | some var => !var.is_distributed

/-- Embeds `block._remove_op(index)`: delete the operator at the given
position, keeping all others in order. -/
def removeOp (ops : List OpDesc) (index : Nat) : List OpDesc :=
  ops.take index ++ ops.drop (index + 1)

/-- The index-collecting loop `for i, op in enumerate(ops): if pred(op):
pop_idx.append(i)`, started at counter `i`. -/
def popIdxFrom (pred : OpDesc → Bool) (i : Nat) : List OpDesc → List Nat
  | [] => []
  | op :: rest =>
    if pred op then i :: popIdxFrom pred (i + 1) rest
    else popIdxFrom pred (i + 1) rest

/-- The removal pattern shared by `_prune_feed_ops` and
`IpuCompiledProgram.compile`: collect the indices of operators matching
`pred`, then `_remove_op` them in reversed index order. -/
def removeOpsWhere (pred : OpDesc → Bool) (ops : List OpDesc) : List OpDesc :=
  (popIdxFrom pred 0 ops).reverse.foldl removeOp ops

/-- Embeds `_prune_feed_ops(program)` restricted to the op list it
mutates: remove every operator whose type is "feed" from the global
block. -/
def _prune_feed_ops (ops : List OpDesc) : List OpDesc :=
  removeOpsWhere (fun op => op.type == "feed") ops

theorem popIdxFrom_shift (pred : OpDesc → Bool) (i : Nat) (l : List OpDesc) :
    popIdxFrom pred (i + 1) l = (popIdxFrom pred i l).map (· + 1) := by
  induction l generalizing i with
  | nil => simp [popIdxFrom]
  | cons op rest ih =>
    by_cases h : pred op <;> simp [popIdxFrom, h, ih]

theorem removeOp_cons (a : OpDesc) (l : List OpDesc) (i : Nat) :
    removeOp (a :: l) (i + 1) = a :: removeOp l i := by
  simp [removeOp, List.take_succ_cons, List.drop_succ_cons]

theorem foldr_removeOp_map_succ (idxs : List Nat) (a : OpDesc) (l : List OpDesc) :
    (idxs.map (· + 1)).foldr (fun i acc => removeOp acc i) (a :: l)
      = a :: idxs.foldr (fun i acc => removeOp acc i) l := by
  induction idxs with
  | nil => rfl
  | cons j rest ih => simp [List.foldr_cons, ih, removeOp_cons]

/-- Removing the collected indices in reversed order is exactly
filtering out the matching operators, keeping the relative order of the
rest. -/
theorem removeOpsWhere_eq_filter (pred : OpDesc → Bool) (ops : List OpDesc) :
    removeOpsWhere pred ops = ops.filter (fun op => !pred op) := by
  unfold removeOpsWhere
  rw [List.foldl_reverse]
  induction ops with
  | nil => rfl
  | cons a rest ih =>
    by_cases h : pred a
    · simp only [popIdxFrom, h, if_pos, List.foldr_cons, popIdxFrom_shift,
        foldr_removeOp_map_succ, ih]
      simp [removeOp, List.filter_cons, h]
    · simp only [popIdxFrom, h, if_neg, Bool.false_eq_true, not_false_iff,
        popIdxFrom_shift, foldr_removeOp_map_succ, ih]
      simp [List.filter_cons, h]

theorem prune_feed_ops_eq_filter (ops : List OpDesc) :
    _prune_feed_ops ops = ops.filter (fun op => !(op.type == "feed")) :=
  removeOpsWhere_eq_filter _ ops

/-- A strategy option value: the option bags passed to `set_options`
hold ints, bools or strings (float-valued options such as `lr` are
never inspected by this core, so their payload is irrelevant and an
int stands in for it). -/
inductive OptionValue where
  | ofInt (i : Int)
  | ofBool (b : Bool)
  | ofStr (s : String)
  deriving DecidableEq, Repr

/-- Python truthiness of a stored option value, as used by
`if not enable_manual_shard`. -/
def OptionValue.truthy : OptionValue → Bool
  | .ofInt i => i != 0
  | .ofBool b => b
  | .ofStr s => s != ""

/-- Modelled from the spec: storing one entry into the live
configuration mapping of the underlying `core.IpuStrategy` (not under
src/): replace an existing binding of the same name, else append. -/
def setOneOption : List (String × OptionValue) → String → OptionValue →
    List (String × OptionValue)
  | [], key, v => [(key, v)]
  | kv :: rest, key, v =>
    if kv.1 == key then (key, v) :: rest else kv :: setOneOption rest key v

/-- Modelled from the spec: `setOptions(bag)` of the underlying
`core.IpuStrategy` store merges the bag's entries into the live
configuration, entry by entry. -/
def mergeOptions (opts : List (String × OptionValue))
    (bag : List (String × OptionValue)) : List (String × OptionValue) :=
  bag.foldl (fun acc kv => setOneOption acc kv.1 kv.2) opts

/-- Read one binding of the live configuration mapping by name. -/
def lookupOption (opts : List (String × OptionValue)) (key : String) :
    Option OptionValue :=
  (opts.find? (fun kv => kv.1 == key)).map (fun kv => kv.2)

/-- The Python-side `IpuStrategy` state: the underlying option store
together with the fields set in `__init__` (`has_custom_ops`,
`custom_op_names`, `need_compile`). -/
structure IpuStrategy where
  options : List (String × OptionValue)
  has_custom_ops : Bool
  custom_op_names : List String
  need_compile : Bool
  deriving Repr

/-- Embeds `IpuStrategy.set_options(options)`: forward the bag to the
underlying store, then set `need_compile` when any key falls outside
the recompile white-list, which is the singleton set holding "lr"
(`options.keys() - recompile_white_list` is non-empty exactly when some
key differs from "lr"). -/
def IpuStrategy.set_options (s : IpuStrategy)
    (options : List (String × OptionValue)) : IpuStrategy :=
  let s' := { s with options := mergeOptions s.options options }
  if options.any (fun kv => !(kv.1 == "lr")) then
    { s' with need_compile := true }
  else s'

/-- Embeds `IpuStrategy.get_option(option)`; modelled from the spec
for the underlying store's behaviour on an unrecognized name
(`getOption(name)` fails if unknown). -/
def IpuStrategy.get_option (s : IpuStrategy) (option : String) :
    Except String OptionValue :=
  match lookupOption s.options option with
  | some v => .ok v
  | none => .error ("invalid option name " ++ option)

/-- Embeds `IpuStrategy.set_graph_config(num_ipus, is_training,
micro_batch_size, enable_manual_shard)`: guard, then set the four
options. -/
def IpuStrategy.set_graph_config (s : IpuStrategy) (num_ipus : Int)
    (is_training : Bool) (micro_batch_size : Int)
    (enable_manual_shard : Bool) : Except String IpuStrategy :=
  if num_ipus == 1 && enable_manual_shard then
    .error "Only if num_ipus > 1, enable_manual_shard is able to be set True."
  else
    .ok (s.set_options [("num_ipus", .ofInt num_ipus),
      ("is_training", .ofBool is_training),
      ("micro_batch_size", .ofInt micro_batch_size),
      ("enable_manual_shard", .ofBool enable_manual_shard)])

/-- Embeds `IpuStrategy.set_pipelining_config(enable_pipelining,
batches_per_step, enable_gradient_accumulation, accumulation_factor)`:
read the current `enable_manual_shard` option, guard, then set the
four options. -/
def IpuStrategy.set_pipelining_config (s : IpuStrategy)
    (enable_pipelining : Bool) (batches_per_step : Int)
    (enable_gradient_accumulation : Bool) (accumulation_factor : Int) :
    Except String IpuStrategy := do
  let enable_manual_shard ← s.get_option "enable_manual_shard"
  if !enable_manual_shard.truthy && enable_pipelining then
    .error "Only if enable_manual_shard=True, enable_pipelining is able to be set True."
  else
    .ok (s.set_options [("enable_pipelining", .ofBool enable_pipelining),
      ("batches_per_step", .ofInt batches_per_step),
      ("enable_gradient_accumulation", .ofBool enable_gradient_accumulation),
      ("accumulation_factor", .ofInt accumulation_factor)])

theorem lookupOption_setOneOption_same (opts : List (String × OptionValue))
    (k : String) (v : OptionValue) :
    lookupOption (setOneOption opts k v) k = some v := by
  induction opts with
  | nil => simp [setOneOption, lookupOption, List.find?]
  | cons kv rest ih =>
    by_cases h : kv.1 == k
    · simp [setOneOption, h, lookupOption, List.find?]
    · simpa [setOneOption, h, lookupOption, List.find?] using ih

theorem lookupOption_setOneOption_other (opts : List (String × OptionValue))
    (k k' : String) (v : OptionValue) (h : (k' == k) = false) :
    lookupOption (setOneOption opts k v) k' = lookupOption opts k' := by
  have h2 : (k == k') = false := by
    rw [beq_eq_false_iff_ne] at h ⊢
    exact fun e => h e.symm
  induction opts with
  | nil => simp [setOneOption, lookupOption, List.find?, h2]
  | cons kv rest ih =>
    by_cases hk : kv.1 == k
    · have hke : kv.1 = k := by simpa using hk
      have hkv : (kv.1 == k') = false := by rw [hke]; exact h2
      simp [setOneOption, hk, lookupOption, List.find?, h2, hkv]
    · by_cases hkv : kv.1 == k'
      · simp [setOneOption, hk, lookupOption, List.find?, hkv]
      · simpa [setOneOption, hk, lookupOption, List.find?, hkv] using ih

theorem set_options_options (s : IpuStrategy)
    (bag : List (String × OptionValue)) :
    (s.set_options bag).options = mergeOptions s.options bag := by
  unfold IpuStrategy.set_options
  by_cases h : bag.any (fun kv => !(kv.1 == "lr")) <;> simp [h]

/-- A concrete strategy state used for closed instantiations: a store
holding `enable_manual_shard = false` and `num_ipus = 1`, with
`need_compile` still false. -/
def sampleStrategy : IpuStrategy :=
  { options := [("enable_manual_shard", .ofBool false), ("num_ipus", .ofInt 1)],
    has_custom_ops := false, custom_op_names := [], need_compile := false }

/-- Claim C2: for every call to `IpuStrategy.set_options(options)`, if
every key of `options` lies in the recompile-exempt allow-list
consisting of "lr" alone, `need_compile` keeps the value it had before
the call; if at least one key is outside that allow-list, `need_compile`
is true after the call. -/
theorem set_options_need_compile_contract (s : IpuStrategy)
    (options : List (String × OptionValue)) :
    ((∀ kv ∈ options, kv.1 = "lr") →
      (s.set_options options).need_compile = s.need_compile) ∧
    ((∃ kv ∈ options, kv.1 ≠ "lr") →
      (s.set_options options).need_compile = true) := by
  constructor
  · intro h
    have hany : options.any (fun kv => !(kv.1 == "lr")) = false := by
      simp only [List.any_eq_false]
      intro kv hkv
      simp [h kv hkv]
    simp [IpuStrategy.set_options, hany]
  · rintro ⟨kv, hkv, hne⟩
    have hany : options.any (fun kv => !(kv.1 == "lr")) = true := by
      refine List.any_eq_true.mpr ⟨kv, hkv, ?_⟩
      simp [hne]
    simp [IpuStrategy.set_options, hany]

/-- Witness for claim C2 at a concrete state: a bag holding only "lr"
keeps `need_compile` (false), and a bag holding "num_ipus" forces it
true. -/
theorem set_options_need_compile_contract_witness :
    ((sampleStrategy.set_options [("lr", .ofInt 0)]).need_compile
        = sampleStrategy.need_compile) ∧
    ((sampleStrategy.set_options [("num_ipus", .ofInt 2)]).need_compile
        = true) := by
  constructor
  · exact (set_options_need_compile_contract sampleStrategy _).1 (by decide)
  · exact (set_options_need_compile_contract sampleStrategy _).2
      ⟨("num_ipus", OptionValue.ofInt 2), by simp, by decide⟩

/-- Claim C5 (code bug): the guard of `set_graph_config` only fires on
`num_ipus == 1`, so the call with `num_ipus = 0` and
`enable_manual_shard = true` succeeds and sets the four options, even
though 0 > 1 is false — contradicting the claim and the function's own
documentation and error message ("Only if num_ipus > 1,
enable_manual_shard is able to be set True."). -/
theorem set_graph_config_zero_ipus_not_rejected :
    ¬((0 : Int) > 1) ∧
    sampleStrategy.set_graph_config 0 true 1 true
      = .ok (sampleStrategy.set_options [("num_ipus", .ofInt 0),
          ("is_training", .ofBool true), ("micro_batch_size", .ofInt 1),
          ("enable_manual_shard", .ofBool true)]) := by
  exact ⟨by decide, rfl⟩

/-- Claim C6: for every call to `set_pipelining_config` with
`enable_pipelining = true` while the stored `enable_manual_shard`
option is false, the call fails before setting any option; when the
stored option is true or `enable_pipelining = false`, the call succeeds
and the four options are set. -/
theorem set_pipelining_config_guard (s : IpuStrategy) (v : OptionValue)
    (batches_per_step accumulation_factor : Int)
    (enable_gradient_accumulation : Bool)
    (hv : s.get_option "enable_manual_shard" = .ok v) :
    (v.truthy = false →
      s.set_pipelining_config true batches_per_step
          enable_gradient_accumulation accumulation_factor
        = .error "Only if enable_manual_shard=True, enable_pipelining is able to be set True.") ∧
    (∀ enable_pipelining : Bool,
      (v.truthy = true ∨ enable_pipelining = false) →
      ∃ s', s.set_pipelining_config enable_pipelining batches_per_step
          enable_gradient_accumulation accumulation_factor = .ok s' ∧
        s'.get_option "enable_pipelining" = .ok (.ofBool enable_pipelining) ∧
        s'.get_option "batches_per_step" = .ok (.ofInt batches_per_step) ∧
        s'.get_option "enable_gradient_accumulation"
          = .ok (.ofBool enable_gradient_accumulation) ∧
        s'.get_option "accumulation_factor"
          = .ok (.ofInt accumulation_factor)) := by
  constructor
  · intro htr
    simp [IpuStrategy.set_pipelining_config, hv, htr, Bind.bind, Except.bind]
  · intro ep hcase
    have hok : s.set_pipelining_config ep batches_per_step
        enable_gradient_accumulation accumulation_factor
        = .ok (s.set_options [("enable_pipelining", .ofBool ep),
            ("batches_per_step", .ofInt batches_per_step),
            ("enable_gradient_accumulation",
              .ofBool enable_gradient_accumulation),
            ("accumulation_factor", .ofInt accumulation_factor)]) := by
      rcases hcase with h | h
      · simp [IpuStrategy.set_pipelining_config, hv, h, Bind.bind, Except.bind]
      · subst h
        simp [IpuStrategy.set_pipelining_config, hv, Bind.bind, Except.bind]
    refine ⟨_, hok, ?_, ?_, ?_, ?_⟩ <;>
        simp only [IpuStrategy.get_option, set_options_options, mergeOptions,
          List.foldl_cons, List.foldl_nil]
    · rw [lookupOption_setOneOption_other _ "accumulation_factor"
          "enable_pipelining" _ (by decide),
        lookupOption_setOneOption_other _ "enable_gradient_accumulation"
          "enable_pipelining" _ (by decide),
        lookupOption_setOneOption_other _ "batches_per_step"
          "enable_pipelining" _ (by decide),
        lookupOption_setOneOption_same]
    · rw [lookupOption_setOneOption_other _ "accumulation_factor"
          "batches_per_step" _ (by decide),
        lookupOption_setOneOption_other _ "enable_gradient_accumulation"
          "batches_per_step" _ (by decide),
        lookupOption_setOneOption_same]
    · rw [lookupOption_setOneOption_other _ "accumulation_factor"
          "enable_gradient_accumulation" _ (by decide),
        lookupOption_setOneOption_same]
    · rw [lookupOption_setOneOption_same]

/-- Witness for claim C6 at a concrete state whose stored
`enable_manual_shard` is false: enabling pipelining fails, while
leaving it disabled sets the four options. -/
theorem set_pipelining_config_guard_witness :
    (sampleStrategy.set_pipelining_config true 1 false 1
      = .error "Only if enable_manual_shard=True, enable_pipelining is able to be set True.") ∧
    (∃ s', sampleStrategy.set_pipelining_config false 1 false 1 = .ok s' ∧
      s'.get_option "enable_pipelining" = .ok (.ofBool false) ∧
      s'.get_option "batches_per_step" = .ok (.ofInt 1) ∧
      s'.get_option "enable_gradient_accumulation" = .ok (.ofBool false) ∧
      s'.get_option "accumulation_factor" = .ok (.ofInt 1)) := by
  have h := set_pipelining_config_guard sampleStrategy (.ofBool false)
    1 1 false rfl
  exact ⟨h.1 rfl, h.2 false (Or.inr rfl)⟩

/-- The collection loop of `CompiledProgram._compile_data_parallel`
(`for node in self._graph.nodes(): ...`): append the node's name when
the node is a value node with a non-null descriptor that is persistable
and not RAW-typed, and the driver holds a program (`self._program is
not None`) for which `_should_broadcast_or_not_exists` is true. -/
def persistableLoop (prog : Option Program) : List Node → List String
  | [] => []
  | node :: rest =>
    match node with
    | .varNode name (some v) =>
      if v.persistable && !(v.varType == .RAW) then
        match prog with
        | some p =>
          if _should_broadcast_or_not_exists p name then
            name :: persistableLoop prog rest
          else persistableLoop prog rest
        | none => persistableLoop prog rest
      else persistableLoop prog rest
    | _ => persistableLoop prog rest

/-- The `_persistable_vars` list of `_compile_data_parallel`: the
collected names, deduplicated (`list(set(...))`) and sorted ascending
(`.sort()`, modelled by insertion sort — the sort normalizes whatever
intermediate order the Python set iteration produced). -/
def compile_data_parallel_persistable_vars (g : Graph)
    (prog : Option Program) : List String :=
  ((persistableLoop prog g.nodes).dedup).insertionSort (· ≤ ·)

/-- The per-node selection the collection loop performs: the node's
name when every condition of the loop body holds, nothing otherwise. -/
def persistableSelect (prog : Option Program) (node : Node) :
    Option String :=
  match node with
  | .varNode name (some v) =>
    if v.persistable && !(v.varType == VarType.RAW) then
      match prog with
      | some p =>
        if _should_broadcast_or_not_exists p name then some name else none
      | none => none
    else none
  | _ => none

theorem persistableLoop_eq_filterMap (prog : Option Program)
    (nodes : List Node) :
    persistableLoop prog nodes = nodes.filterMap (persistableSelect prog) := by
  induction nodes with
  | nil => rfl
  | cons node rest ih =>
    cases node with
    | opNode o => simp [persistableLoop, persistableSelect,
        List.filterMap_cons, ih]
    | varNode nm v? =>
      cases v? with
      | none => simp [persistableLoop, persistableSelect,
          List.filterMap_cons, ih]
      | some v =>
        by_cases h1 : (v.persistable && !(v.varType == VarType.RAW)) = true
        · cases prog with
          | none => simp [persistableLoop, persistableSelect,
              List.filterMap_cons, h1, ih]
          | some p =>
            by_cases h2 : _should_broadcast_or_not_exists p nm = true
            · simp [persistableLoop, persistableSelect,
                List.filterMap_cons, h1, h2, ih]
            · simp [persistableLoop, persistableSelect,
                List.filterMap_cons, h1, Bool.eq_false_iff.mpr h2, ih]
        · simp [persistableLoop, persistableSelect, List.filterMap_cons,
            Bool.eq_false_iff.mpr h1, ih]

theorem mem_persistableLoop (p : Program) (nodes : List Node)
    (name : String) :
    name ∈ persistableLoop (some p) nodes ↔
      ∃ v : VarDesc, Node.varNode name (some v) ∈ nodes ∧
        v.persistable = true ∧ v.varType ≠ VarType.RAW ∧
        _should_broadcast_or_not_exists p name = true := by
  rw [persistableLoop_eq_filterMap]
  rw [List.mem_filterMap]
  constructor
  · rintro ⟨node, hmem, hf⟩
    cases node with
    | opNode o => exact absurd hf (by simp [persistableSelect])
    | varNode nm v? =>
      cases v? with
      | none => exact absurd hf (by simp [persistableSelect])
      | some v =>
        simp only [persistableSelect] at hf
        by_cases h1 : (v.persistable && !(v.varType == VarType.RAW)) = true
        · rw [if_pos h1] at hf
          by_cases h2 : _should_broadcast_or_not_exists p nm = true
          · rw [if_pos h2] at hf
            injection hf with hnm
            subst hnm
            rw [Bool.and_eq_true, Bool.not_eq_true', beq_eq_false_iff_ne]
              at h1
            exact ⟨v, hmem, h1.1, h1.2, h2⟩
          · rw [if_neg h2] at hf
            exact absurd hf (by simp)
        · rw [if_neg h1] at hf
          exact absurd hf (by simp)
  · rintro ⟨v, hmem, hp, hr, hb⟩
    refine ⟨Node.varNode name (some v), hmem, ?_⟩
    simp [persistableSelect, hp, hr, hb]

/-- Claim C3: for every input graph (duplicate or unordered persistable
value nodes included) and driver program, the persistable-variable list
built by `_compile_data_parallel` is sorted in ascending name order,
has no duplicates, and holds exactly the names of the value nodes
flagged persistable, excluding RAW-typed ones and ones the
broadcast-exemption predicate marks as already distributed. -/
theorem persistable_vars_sorted_dedup_complete (g : Graph) (p : Program) :
    (compile_data_parallel_persistable_vars g (some p)).Sorted (· ≤ ·) ∧
    (compile_data_parallel_persistable_vars g (some p)).Nodup ∧
    ∀ name : String,
      name ∈ compile_data_parallel_persistable_vars g (some p) ↔
        ∃ v : VarDesc, Node.varNode name (some v) ∈ g.nodes ∧
          v.persistable = true ∧ v.varType ≠ VarType.RAW ∧
          _should_broadcast_or_not_exists p name = true := by
  refine ⟨List.sorted_insertionSort _ _, ?_, ?_⟩
  · exact ((List.perm_insertionSort _ _).nodup_iff).mpr
      (List.nodup_dedup _)
  · intro name
    rw [compile_data_parallel_persistable_vars, List.mem_insertionSort,
      List.mem_dedup, mem_persistableLoop]

/-- Device kind of a placement, as dispatched by the isinstance checks
on `core.CUDAPlace` / `core.XPUPlace` (anything else is CPU). -/
inductive DeviceKind where
  | CPU
  | CUDA
  | XPU
  deriving DecidableEq, Repr

/-- A device placement: kind and device id; `_place._equals(place)`
compares placements componentwise. -/
structure Place where
  kind : DeviceKind
  deviceId : Nat
  deriving DecidableEq, Repr

/-- Embeds `place._equals(other)`. -/
def Place._equals (p q : Place) : Bool := p == q

/-- A scope handle: the variable store itself is an external
collaborator, only its identity is compared by `_compile`. -/
abbrev Scope := Nat

/-- The executor artifact `_compile` installs: the inference predictor
or the data-parallel executor tagged by its device type. -/
inductive Executor where
  | inference
  | dataParallel (use_device : DeviceKind)
  deriving DecidableEq, Repr

/-- The argument of the `CompiledProgram` constructor: a `core.Graph`,
a `framework.Program`, or a value of any other type (represented by
the name Python would print for its type). -/
inductive ProgramOrGraph where
  | ofGraph (g : Graph)
  | ofProgram (p : Program)
  | other (typeName : String)
  deriving Repr

/-- Modelled from the spec: `core.Graph(program.desc)` (not under
src/) builds the graph from the deep-copied program description — one
value node per variable of the global block and one operator node per
operator. -/
def core_Graph (p : Program) : Graph :=
  { nodes := p.globalBlock.vars.map (fun v => Node.varNode v.name (some v))
      ++ p.globalBlock.ops.map (fun o => Node.opNode (some o)) }

/-- The fields of a `CompiledProgram` set by `__init__` and mutated by
`_compile` (build-strategy and var-sharing plumbing that no claim
touches is elided). -/
structure CompiledProgram where
  _graph : Graph
  _program : Option Program
  _scope : Option Scope
  _place : Option Place
  _compiled : Bool
  _is_inference : Bool
  _places : Option (List (Option Place))
  _executor : Option Executor
  _persistable_vars : List String
  deriving Repr

/-- Embeds `CompiledProgram.__init__(program_or_graph)`: adopt a Graph
unchanged; prune feed operators from a Program's global block and build
the graph from the pruned description; reject any other type with a
TypeError naming the received type. -/
def CompiledProgram.init (program_or_graph : ProgramOrGraph) :
    Except String CompiledProgram :=
  match program_or_graph with
  | .ofGraph g =>
    .ok { _graph := g, _program := none, _scope := none, _place := none,
          _compiled := false, _is_inference := false, _places := none,
          _executor := none, _persistable_vars := [] }
  | .ofProgram p =>
    let pruned : Program :=
      { p with globalBlock :=
          { p.globalBlock with ops := _prune_feed_ops p.globalBlock.ops } }
    .ok { _graph := core_Graph pruned, _program := some pruned,
          _scope := none, _place := none, _compiled := false,
          _is_inference := false, _places := none, _executor := none,
          _persistable_vars := [] }
  | .other t =>
    .error ("The type of program_to_graph parameter is wrong, expected Graph or Program, but received " ++ t)

/-- Embeds `self._place._equals(place)`; a missing stored place would
raise an AttributeError in Python, so the value returned for `none` is
never observed on the states the recompile contract speaks about. -/
def storedPlaceEquals (stored : Option Place) (arg : Place) : Bool :=
  match stored with
  | some p => p._equals arg
  | none => false

/-- Embeds `CompiledProgram._compile(scope, place)`: on an
already-compiled program, reject a differing truthy scope or a truthy
place the stored one does not equal, else return self unchanged; on a
first call, record scope and place, then install the inference or
data-parallel executor (whose construction also builds the
deduplicated, sorted persistable-variable list). -/
def CompiledProgram._compile (st : CompiledProgram)
    (scope : Option Scope) (place : Option Place) :
    Except String CompiledProgram :=
  if st._compiled then
    if scope.isSome && (st._scope != scope) then
      .error "Cannot compile program with different scope."
    else if (match place with
        | some pl => !(storedPlaceEquals st._place pl)
        | none => false) then
      .error "Cannot compile program with different place."
    else .ok st
  else
    let st1 := { st with _compiled := true, _scope := scope,
                         _place := place }
    if st1._is_inference then
      .ok { st1 with _executor := some Executor.inference }
    else
      let use_device := match place with
        | some pl => pl.kind
        | none => DeviceKind.CPU
      .ok { st1 with
        _places := some [place],
        _persistable_vars :=
          compile_data_parallel_persistable_vars st1._graph st1._program,
        _executor := some (Executor.dataParallel use_device) }

/-- Claim C7: a Graph input is adopted unchanged (and no program is
kept); a Program input has every "feed" operator removed from its
global block, the other operators kept in relative order, before the
graph is built from it; an input of any other type raises a type error
identifying the received type. -/
theorem compiled_program_init_contract :
    (∀ g : Graph, ∃ st, CompiledProgram.init (.ofGraph g) = .ok st ∧
      st._graph = g ∧ st._program = none) ∧
    (∀ p : Program, ∃ st, CompiledProgram.init (.ofProgram p) = .ok st ∧
      ∃ p' : Program, st._program = some p' ∧
        p'.globalBlock.ops
          = p.globalBlock.ops.filter (fun op => !(op.type == "feed")) ∧
        p'.globalBlock.vars = p.globalBlock.vars ∧
        p'.lr_scheduler = p.lr_scheduler ∧
        st._graph = core_Graph p') ∧
    (∀ t : String, CompiledProgram.init (.other t)
      = .error ("The type of program_to_graph parameter is wrong, expected Graph or Program, but received " ++ t)) := by
  refine ⟨fun g => ⟨_, rfl, rfl, rfl⟩,
    fun p => ⟨_, rfl, _, rfl, ?_, rfl, rfl, rfl⟩,
    fun t => rfl⟩
  exact prune_feed_ops_eq_filter _

/-- Claim C4: on an already-compiled program bound to scope S and
place P, a second `_compile` with the same scope and an equal place
returns the very same object; a second call with a different scope, or
with the same scope but a non-equal place, raises an error. -/
theorem compile_recompile_contract (st : CompiledProgram) (S : Scope)
    (P : Place) (hc : st._compiled = true) (hs : st._scope = some S)
    (hp : st._place = some P) :
    (st._compile (some S) (some P) = .ok st) ∧
    (∀ (S' : Scope) (place' : Option Place), S' ≠ S →
      st._compile (some S') place'
        = .error "Cannot compile program with different scope.") ∧
    (∀ P' : Place, (P' == P) = false →
      st._compile (some S) (some P')
        = .error "Cannot compile program with different place.") := by
  refine ⟨?_, ?_, ?_⟩
  · simp [CompiledProgram._compile, hc, hs, hp, storedPlaceEquals,
      Place._equals]
  · intro S' place' hne
    have : (st._scope != some S') = true := by
      simp [hs, bne, hne, Ne.symm hne]
    simp [CompiledProgram._compile, hc, this]
  · intro P' hne
    have h1 : (st._scope != some S) = false := by simp [hs, bne]
    have h2 : storedPlaceEquals st._place P' = false := by
      have : (P == P') = false := by
        rw [beq_eq_false_iff_ne] at hne ⊢
        exact fun e => hne e.symm
      simp [hp, storedPlaceEquals, Place._equals, this]
    simp [CompiledProgram._compile, hc, h1, h2]

/-- A concrete already-compiled program state used by the recompile
witness: bound to scope 0 and CPU device 0. -/
def sampleCompiled : CompiledProgram :=
  { _graph := { nodes := [] }, _program := none, _scope := some 0,
    _place := some { kind := DeviceKind.CPU, deviceId := 0 },
    _compiled := true, _is_inference := false, _places := none,
    _executor := none, _persistable_vars := [] }

/-- Witness for claim C4 at a concrete compiled state: same
scope/place is a no-op, a different scope errors, a different place
errors. -/
theorem compile_recompile_contract_witness :
    (sampleCompiled._compile (some 0)
        (some { kind := DeviceKind.CPU, deviceId := 0 })
      = .ok sampleCompiled) ∧
    (sampleCompiled._compile (some 1) none
      = .error "Cannot compile program with different scope.") ∧
    (sampleCompiled._compile (some 0)
        (some { kind := DeviceKind.CUDA, deviceId := 0 })
      = .error "Cannot compile program with different place.") := by
  have h := compile_recompile_contract sampleCompiled 0
    { kind := DeviceKind.CPU, deviceId := 0 } rfl rfl rfl
  exact ⟨h.1, h.2.1 1 none (by decide), h.2.2 _ (by decide)⟩

/-- A dynamic-to-static cache key: `hash(item)` is its fingerprint,
and `class_instance` records whether the traced callable belongs to a
class instance. -/
structure CacheKey where
  hashVal : Nat
  hasClassInstance : Bool
  deriving DecidableEq, Repr

/-- Modelled from the spec: the fixed soft ceiling on the live entry
count (`MAX_TRACED_PROGRAM_COUNT`, imported from
`paddle.jit.dy2static.program_translator`, which is not under src/;
no claim depends on its exact value). -/
def MAX_TRACED_PROGRAM_COUNT : Nat := 10

/-- The `ProgramCache` state the patched getter mutates: the
insertion-ordered `_caches` dict keyed by fingerprint, and the
`_recent_key` shortcut. `α` is the type of cached artifacts (the
(concrete program, partial program) pair). -/
structure ProgramCache (α : Type) where
  _caches : List (Nat × α)
  _recent_key : Option Nat

/-- Dict store `self._caches[item_id] = value`: replace an existing
binding of the key in place, else append. -/
def cacheStore {α : Type} : List (Nat × α) → Nat → α → List (Nat × α)
  | [], k, v => [(k, v)]
  | kv :: rest, k, v =>
    if kv.1 == k then (k, v) :: rest else kv :: cacheStore rest k v

/-- Dict read `self._caches[item_id]` / membership probe
`item_id in self._caches`. -/
def cacheLookup {α : Type} (c : List (Nat × α)) (k : Nat) : Option α :=
  (c.find? (fun kv => kv.1 == k)).map (fun kv => kv.2)

/-- The observable outcome of one patched cache lookup: the new cache
state, the entry returned, how many times the build pipeline ran, and
the warnings emitted. -/
structure GetterOutcome (α : Type) where
  state : ProgramCache α
  result : Option α
  buildCount : Nat
  warnings : List String

/-- Embeds `patch_getter(self, item)` installed by
`IpuDynamicPatcher.patch_program_cache`, applied to a `CacheKey` item:
record the recent key; when the fingerprint is missing from the cache
or the strategy's `need_compile` flag is set, emit the code's
diagnostic warnings, run the build pipeline once (`_build_once`
composed with `convert_concrete_program` and `partial_program_from`,
an opaque `buildFn` here), store its result under the fingerprint, and
warn when the entry count passed the soft ceiling; finally return the
entry stored under the fingerprint. -/
def patch_getter {α : Type} (need_compile : Bool) (buildFn : CacheKey → α)
    (self : ProgramCache α) (item : CacheKey) : GetterOutcome α :=
  let item_id := item.hashVal
  let self := { self with _recent_key := some item_id }
  if (cacheLookup self._caches item_id).isNone || need_compile then
    let w1 : List String :=
      if (cacheLookup self._caches item_id).isSome then
        ["ipu_strategy chances detected. Please sync weights."]
      else []
    let w2 : List String :=
      if !self._caches.isEmpty && !need_compile then
        ["dynamic2static on IPU doesn't support multiple caches."]
      else []
    let built := buildFn item
    let caches' := cacheStore self._caches item_id built
    let current_tracing_count := caches'.length
    let w3 : List String :=
      if current_tracing_count > MAX_TRACED_PROGRAM_COUNT then
        ["Too much cached programs will bring expensive overhead."]
      else []
    { state := { self with _caches := caches' },
      result := cacheLookup caches' item_id,
      buildCount := 1,
      warnings := w1 ++ w2 ++ w3 }
  else
    { state := self, result := cacheLookup self._caches item_id,
      buildCount := 0, warnings := [] }

theorem cacheLookup_cacheStore_same {α : Type} (c : List (Nat × α))
    (k : Nat) (v : α) : cacheLookup (cacheStore c k v) k = some v := by
  induction c with
  | nil => simp [cacheStore, cacheLookup, List.find?]
  | cons kv rest ih =>
    by_cases h : kv.1 == k
    · simp [cacheStore, h, cacheLookup, List.find?]
    · simpa [cacheStore, h, cacheLookup, List.find?] using ih

theorem mem_keys_cacheStore {α : Type} (c : List (Nat × α))
    (k k' : Nat) (v : α) (h : k ∈ c.map Prod.fst) :
    k ∈ (cacheStore c k' v).map Prod.fst := by
  induction c with
  | nil => simp at h
  | cons kv rest ih =>
    rcases List.mem_map.mp h with ⟨p, hp, hk⟩
    rcases List.mem_cons.mp hp with rfl | hmem
    · by_cases he : p.1 == k'
      · have : p.1 = k' := by simpa using he
        simp [cacheStore, he, ← hk, this]
      · simp [cacheStore, he, ← hk]
    · by_cases he : kv.1 == k'
      · simp only [cacheStore, he, if_pos, List.map_cons, List.mem_cons]
        exact Or.inr (List.mem_map.mpr ⟨p, hmem, hk⟩)
      · simp only [cacheStore, he, Bool.false_eq_true, if_neg,
          not_false_iff, List.map_cons, List.mem_cons]
        exact Or.inr (ih (List.mem_map.mpr ⟨p, hmem, hk⟩))

theorem mem_keys_patch_getter {α : Type} (need_compile : Bool)
    (buildFn : CacheKey → α) (self : ProgramCache α) (item : CacheKey)
    (k : Nat) (h : k ∈ self._caches.map Prod.fst) :
    k ∈ (patch_getter need_compile buildFn self item).state._caches.map
      Prod.fst := by
  unfold patch_getter
  by_cases hc : (cacheLookup self._caches item.hashVal).isNone
      || need_compile
  · simpa [hc] using mem_keys_cacheStore _ _ _ _ h
  · simpa [hc] using h

/-- Run a sequence of patched cache lookups, each with the
need-compile flag the strategy had at that point. -/
def runLookups {α : Type} (buildFn : CacheKey → α)
    (self : ProgramCache α) : List (Bool × CacheKey) → ProgramCache α
  | [] => self
  | (nc, item) :: rest =>
    runLookups buildFn (patch_getter nc buildFn self item).state rest

/-- Claim C8: over every sequence of cache lookups the set of cached
fingerprints only grows (no entry is ever removed), and whenever a
lookup ran the build and the resulting entry count exceeds the soft
ceiling, the ceiling warning is among the emitted warnings while the
lookup still returns the entry stored under its fingerprint. -/
theorem cache_growth_and_soft_ceiling {α : Type}
    (buildFn : CacheKey → α) :
    (∀ (self : ProgramCache α) (lookups : List (Bool × CacheKey))
        (k : Nat), k ∈ self._caches.map Prod.fst →
      k ∈ (runLookups buildFn self lookups)._caches.map Prod.fst) ∧
    (∀ (self : ProgramCache α) (nc : Bool) (item : CacheKey),
      (patch_getter nc buildFn self item).buildCount = 1 →
      (patch_getter nc buildFn self item).state._caches.length
          > MAX_TRACED_PROGRAM_COUNT →
      "Too much cached programs will bring expensive overhead."
          ∈ (patch_getter nc buildFn self item).warnings ∧
      (patch_getter nc buildFn self item).result
        = cacheLookup (patch_getter nc buildFn self item).state._caches
            item.hashVal) := by
  constructor
  · intro self lookups
    induction lookups generalizing self with
    | nil => intro k h; simpa [runLookups] using h
    | cons step rest ih =>
      intro k h
      exact ih _ k (mem_keys_patch_getter step.1 buildFn self step.2 k h)
  · intro self nc item hbuilt hover
    by_cases hc : (cacheLookup
        { self with _recent_key := some item.hashVal }._caches
        item.hashVal).isNone || nc
    · refine ⟨?_, ?_⟩
      · have hover' := hover
        simp only [patch_getter, hc, if_pos] at hover' ⊢
        simp only [gt_iff_lt] at hover'
        simp [hover']
      · simp [patch_getter, hc]
    · exact absurd hbuilt (by simp [patch_getter, hc])

/-- Witness for claim C8: a concrete one-step growth check, and a
concrete build that pushes a ten-entry cache past the soft ceiling,
warns, and still returns the stored entry. -/
theorem cache_growth_and_soft_ceiling_witness :
    (0 ∈ (runLookups (fun _ => (0 : Nat))
        { _caches := [(0, 5)], _recent_key := none }
        [(false, { hashVal := 1, hasClassInstance := false })])._caches.map
          Prod.fst) ∧
    ("Too much cached programs will bring expensive overhead."
        ∈ (patch_getter false (fun _ => (0 : Nat))
            { _caches := (List.range 10).map (fun i => (i, 0)),
              _recent_key := none }
            { hashVal := 100, hasClassInstance := false }).warnings ∧
      (patch_getter false (fun _ => (0 : Nat))
          { _caches := (List.range 10).map (fun i => (i, 0)),
            _recent_key := none }
          { hashVal := 100, hasClassInstance := false }).result
        = cacheLookup (patch_getter false (fun _ => (0 : Nat))
            { _caches := (List.range 10).map (fun i => (i, 0)),
              _recent_key := none }
            { hashVal := 100, hasClassInstance := false }).state._caches
            100) := by
  have h := cache_growth_and_soft_ceiling (α := Nat) (fun _ => 0)
  exact ⟨h.1 _ _ 0 (by decide),
    h.2 { _caches := (List.range 10).map (fun i => (i, 0)),
          _recent_key := none }
      false { hashVal := 100, hasClassInstance := false }
      (by decide) (by decide)⟩

/-- Claim C1: a cache lookup whose fingerprint is present while the
strategy's need-compile flag is false returns the cached entry without
running the build and leaves the cache unchanged; otherwise the build
runs exactly once, its result is stored under the fingerprint, and
that stored result is returned. -/
theorem getOrCompile_contract {α : Type} (need_compile : Bool)
    (buildFn : CacheKey → α) (self : ProgramCache α) (item : CacheKey) :
    (∀ a : α, cacheLookup self._caches item.hashVal = some a →
      need_compile = false →
      (patch_getter need_compile buildFn self item).result = some a ∧
      (patch_getter need_compile buildFn self item).buildCount = 0 ∧
      (patch_getter need_compile buildFn self item).state._caches
        = self._caches) ∧
    ((cacheLookup self._caches item.hashVal = none ∨ need_compile = true) →
      (patch_getter need_compile buildFn self item).buildCount = 1 ∧
      cacheLookup (patch_getter need_compile buildFn self item).state._caches
          item.hashVal = some (buildFn item) ∧
      (patch_getter need_compile buildFn self item).result
        = some (buildFn item)) := by
  constructor
  · intro a ha hnc
    subst hnc
    have hc : ((cacheLookup self._caches item.hashVal).isNone || false)
        = false := by simp [ha]
    simp [patch_getter, hc, ha]
  · intro hcase
    have hc : ((cacheLookup self._caches item.hashVal).isNone
        || need_compile) = true := by
      rcases hcase with h | h <;> simp [h]
    simp [patch_getter, hc, cacheLookup_cacheStore_same]

/-- Witness for claim C1: a hit with need-compile off returns the
cached value and skips the build; a miss builds once, stores, and
returns the built value. -/
theorem getOrCompile_contract_witness :
    ((patch_getter false (fun _ => (7 : Nat))
        { _caches := [(3, 5)], _recent_key := none }
        { hashVal := 3, hasClassInstance := false }).result = some 5 ∧
      (patch_getter false (fun _ => (7 : Nat))
        { _caches := [(3, 5)], _recent_key := none }
        { hashVal := 3, hasClassInstance := false }).buildCount = 0 ∧
      (patch_getter false (fun _ => (7 : Nat))
        { _caches := [(3, 5)], _recent_key := none }
        { hashVal := 3, hasClassInstance := false }).state._caches
        = [(3, 5)]) ∧
    ((patch_getter false (fun _ => (7 : Nat))
        { _caches := [(3, 5)], _recent_key := none }
        { hashVal := 4, hasClassInstance := false }).buildCount = 1 ∧
      cacheLookup (patch_getter false (fun _ => (7 : Nat))
          { _caches := [(3, 5)], _recent_key := none }
          { hashVal := 4, hasClassInstance := false }).state._caches 4
        = some 7 ∧
      (patch_getter false (fun _ => (7 : Nat))
          { _caches := [(3, 5)], _recent_key := none }
          { hashVal := 4, hasClassInstance := false }).result = some 7) := by
  constructor
  · exact (getOrCompile_contract false (fun _ => 7)
      { _caches := [(3, 5)], _recent_key := none }
      { hashVal := 3, hasClassInstance := false }).1 5 (by decide) rfl
  · exact (getOrCompile_contract false (fun _ => 7)
      { _caches := [(3, 5)], _recent_key := none }
      { hashVal := 4, hasClassInstance := false }).2 (Or.inl (by decide))

/-- The fields of `IpuCompiledProgram` set by `__init__`: the source
program, the scope, the strategy, and the custom-op names taken from
the strategy when it has any. -/
structure IpuCompiledProgram where
  _program : Program
  _scope : Scope
  _ipu_strategy : IpuStrategy
  _custom_op_names : List String

/-- What a successful `IpuCompiledProgram.compile` hands back: the
constructed program, the `org_program` back-reference to the (by then
boundary-pruned) source program, and the strategy state after the
call. -/
structure IpuCompileResult where
  program : Program
  org_program : Program
  strategy : IpuStrategy

/-- Embeds one step of the loop `for feed_name in feed_list:
feed_var = program_global_block.var(feed_name);
feed_var.desc.set_need_check_feed(False)`; `block.var(name)` raises
when no variable of that name lives in the block. -/
def setNeedCheckFeed (vars : List VarDesc) (feed_name : String) :
    Except String (List VarDesc) :=
  if vars.any (fun v => v.name == feed_name) then
    .ok (vars.map (fun v =>
      if v.name == feed_name then { v with need_check_feed := false }
      else v))
  else .error ("var " ++ feed_name ++ " not in this block")

/-- The whole `for feed_name in feed_list` loop. -/
def setNeedCheckFeedAll (vars : List VarDesc) :
    List String → Except String (List VarDesc)
  | [] => .ok vars
  | feed_name :: rest => do
    let vars' ← setNeedCheckFeed vars feed_name
    setNeedCheckFeedAll vars' rest

/-- The boundary-pruning prefix of `IpuCompiledProgram.compile`: clear
`is_target` on every global-block operator, remove the feed and fetch
operators (collect indices, remove in reversed order), and drop the
"feed"/"fetch" variables. -/
def pruneBoundary (p : Program) : Program :=
  let ops1 := p.globalBlock.ops.map (fun op => { op with is_target := false })
  let ops2 := removeOpsWhere
    (fun op => op.type == "feed" || op.type == "fetch") ops1
  let vars2 := p.globalBlock.vars.filter
    (fun v => !(v.name == "feed") && !(v.name == "fetch"))
  { p with globalBlock := { ops := ops2, vars := vars2 } }

/-- The `lr_scheduler` propagation step of `IpuCompiledProgram.compile`:
when the source program carries a scheduler binding, copy it onto the
result after looking its variable up in the source's global block
(`global_block.vars[lr_var_name]`, a KeyError when absent). -/
def propagateLrScheduler (src : Program) (built : Program) :
    Except String Program :=
  match src.lr_scheduler with
  | some lr_var_name =>
    match src.globalBlock.getVar lr_var_name with
    | some _ => .ok { built with lr_scheduler := some lr_var_name }
    | none => .error ("KeyError: " ++ lr_var_name)
  | none => .ok built

/-- Embeds `IpuCompiledProgram.compile(feed_list, fetch_list)`.  The
C++ pass machinery is external: `applyPass name attrs graph` stands for
`core.get_pass(name)` followed by `set` of each attribute and `apply`,
and `graphToProgram` for the `graph_to_program_pass` conversion into a
fresh program description (so the converted program carries no
scheduler binding of its own). -/
def IpuCompiledProgram.compile
    (applyPass : String → List (String × List String) → Graph → Graph)
    (graphToProgram : Graph → Block)
    (self : IpuCompiledProgram) (feed_list fetch_list : List String) :
    Except String IpuCompileResult := do
  let is_training ← self._ipu_strategy.get_option "is_training"
  let prog1 := pruneBoundary self._program
  let graph0 := core_Graph prog1
  let graph1 :=
    if is_training.truthy then
      ["optimizer_extract_pass", "optimizer_state_align_pass"].foldl
        (fun g pass_name => applyPass pass_name [] g) graph0
    else graph0
  let graph2 :=
    ["forward_graph_extract_pass", "infer_shape_pass", "avg_shard_pass",
      "delete_scale_op_pass"].foldl
      (fun g pass_name =>
        if pass_name == "infer_shape_pass" then
          applyPass pass_name [("feed_list", feed_list)] g
        else applyPass pass_name [] g) graph1
  let graph3 :=
    if !self._custom_op_names.isEmpty then
      applyPass "popart_canonicalization_pass"
        [("custom_ops", self._custom_op_names)] graph2
    else applyPass "popart_canonicalization_pass" [] graph2
  let graph4 :=
    ["ipu_inplace_pass", "ipu_graph_builder_pass",
      "ipu_runtime_replacer_pass"].foldl
      (fun g pass_name => applyPass pass_name
        [("feed_list", feed_list), ("fetch_list", fetch_list)] g) graph3
  let program0 : Program :=
    { globalBlock := graphToProgram graph4, lr_scheduler := none }
  let program1 ← propagateLrScheduler prog1 program0
  let vars' ← setNeedCheckFeedAll program1.globalBlock.vars feed_list
  let program2 : Program :=
    { program1 with globalBlock :=
        { program1.globalBlock with vars := vars' } }
  .ok { program := program2, org_program := prog1,
        strategy := { self._ipu_strategy with need_compile := false } }

theorem except_bind_ok {ε α β : Type} (x : Except ε α)
    (f : α → Except ε β) (b : β) :
    (x >>= f) = .ok b ↔ ∃ a, x = .ok a ∧ f a = .ok b := by
  cases x <;> simp [Bind.bind, Except.bind]

/-- Decomposition of a successful compile: the strategy comes back
with `need_compile` cleared, and the returned program's variables are
the output of the need-check-feed clearing loop. -/
theorem compile_ok_spec
    (applyPass : String → List (String × List String) → Graph → Graph)
    (graphToProgram : Graph → Block)
    (self : IpuCompiledProgram) (feed_list fetch_list : List String)
    (r : IpuCompileResult)
    (h : IpuCompiledProgram.compile applyPass graphToProgram self
      feed_list fetch_list = .ok r) :
    r.strategy = { self._ipu_strategy with need_compile := false } ∧
    ∃ vars0 : List VarDesc,
      setNeedCheckFeedAll vars0 feed_list
        = .ok r.program.globalBlock.vars := by
  unfold IpuCompiledProgram.compile at h
  rw [except_bind_ok] at h
  obtain ⟨v, hv, h⟩ := h
  rw [except_bind_ok] at h
  obtain ⟨p1, hp1, h⟩ := h
  rw [except_bind_ok] at h
  obtain ⟨vars', hvars, h⟩ := h
  rw [Except.ok.injEq] at h
  subst h
  exact ⟨rfl, p1.globalBlock.vars, hvars⟩

/-- Claim C9: every successful call to `IpuCompiledProgram.compile`
(one that returns a program rather than raising) leaves the strategy's
`need_compile` flag false. -/
theorem compile_clears_need_compile
    (applyPass : String → List (String × List String) → Graph → Graph)
    (graphToProgram : Graph → Block)
    (self : IpuCompiledProgram) (feed_list fetch_list : List String)
    (r : IpuCompileResult)
    (h : IpuCompiledProgram.compile applyPass graphToProgram self
      feed_list fetch_list = .ok r) :
    r.strategy.need_compile = false := by
  rw [(compile_ok_spec applyPass graphToProgram self feed_list
    fetch_list r h).1]

/-- A concrete `IpuCompiledProgram` state for the compile witnesses:
empty source program, a strategy whose store holds `is_training` and
whose `need_compile` flag is still true. -/
def sampleIpuCompiled : IpuCompiledProgram :=
  { _program := { globalBlock := { ops := [], vars := [] },
                  lr_scheduler := none },
    _scope := 0,
    _ipu_strategy := { options := [("is_training", .ofBool false)],
                       has_custom_ops := false, custom_op_names := [],
                       need_compile := true },
    _custom_op_names := [] }

/-- Witness for claim C9: a concrete successful compile whose returned
strategy has `need_compile` false (it was true before the call). -/
theorem compile_clears_need_compile_witness :
    sampleIpuCompiled._ipu_strategy.need_compile = true ∧
    ∃ r, IpuCompiledProgram.compile (fun _ _ g => g)
        (fun _ => { ops := [], vars := [] }) sampleIpuCompiled [] []
        = .ok r ∧
      r.strategy.need_compile = false := by
  refine ⟨rfl, _, rfl, ?_⟩
  exact compile_clears_need_compile (fun _ _ g => g)
    (fun _ => { ops := [], vars := [] }) sampleIpuCompiled [] [] _ rfl

theorem setNeedCheckFeed_sets (vars vars' : List VarDesc) (n : String)
    (h : setNeedCheckFeed vars n = .ok vars') :
    ∀ v' ∈ vars', v'.name = n → v'.need_check_feed = false := by
  unfold setNeedCheckFeed at h
  split at h
  · rw [Except.ok.injEq] at h
    subst h
    intro v' hv' hn
    rcases List.mem_map.mp hv' with ⟨v, _, he⟩
    by_cases hvn : v.name == n
    · rw [if_pos hvn] at he
      rw [← he]
    · rw [if_neg hvn] at he
      subst he
      exact absurd hn (by simpa using hvn)
  · exact absurd h (by simp)

theorem setNeedCheckFeed_preserves (vars vars' : List VarDesc)
    (n m : String) (h : setNeedCheckFeed vars n = .ok vars')
    (hp : ∀ v ∈ vars, v.name = m → v.need_check_feed = false) :
    ∀ v' ∈ vars', v'.name = m → v'.need_check_feed = false := by
  unfold setNeedCheckFeed at h
  split at h
  · rw [Except.ok.injEq] at h
    subst h
    intro v' hv' hn
    rcases List.mem_map.mp hv' with ⟨v, hv, he⟩
    by_cases hvn : v.name == n
    · rw [if_pos hvn] at he
      rw [← he]
    · rw [if_neg hvn] at he
      subst he
      exact hp v hv hn
  · exact absurd h (by simp)

theorem setNeedCheckFeedAll_preserves (names : List String)
    (vars vars' : List VarDesc) (m : String)
    (h : setNeedCheckFeedAll vars names = .ok vars')
    (hp : ∀ v ∈ vars, v.name = m → v.need_check_feed = false) :
    ∀ v' ∈ vars', v'.name = m → v'.need_check_feed = false := by
  induction names generalizing vars with
  | nil =>
    rw [setNeedCheckFeedAll, Except.ok.injEq] at h
    subst h
    exact hp
  | cons n rest ih =>
    rw [setNeedCheckFeedAll] at h
    rw [show (do
        let vars' ← setNeedCheckFeed vars n
        setNeedCheckFeedAll vars' rest)
      = setNeedCheckFeed vars n
          >>= fun vars' => setNeedCheckFeedAll vars' rest from rfl,
      except_bind_ok] at h
    obtain ⟨vars1, h1, h2⟩ := h
    exact ih vars1 h2 (setNeedCheckFeed_preserves vars vars1 n m h1 hp)

theorem setNeedCheckFeedAll_sets (names : List String)
    (vars vars' : List VarDesc)
    (h : setNeedCheckFeedAll vars names = .ok vars') :
    ∀ v' ∈ vars', v'.name ∈ names → v'.need_check_feed = false := by
  induction names generalizing vars with
  | nil => exact fun v' _ hn => absurd hn (by simp)
  | cons n rest ih =>
    rw [setNeedCheckFeedAll] at h
    rw [show (do
        let vars' ← setNeedCheckFeed vars n
        setNeedCheckFeedAll vars' rest)
      = setNeedCheckFeed vars n
          >>= fun vars' => setNeedCheckFeedAll vars' rest from rfl,
      except_bind_ok] at h
    obtain ⟨vars1, h1, h2⟩ := h
    intro v' hv' hn
    rcases List.mem_cons.mp hn with he | hr
    · exact setNeedCheckFeedAll_preserves rest vars1 vars' n h2
        (setNeedCheckFeed_sets vars vars1 n h1) v' hv' he
    · exact ih vars1 h2 v' hv' hr

/-- Claim C10: after every successful `IpuCompiledProgram.compile`,
every variable of the returned program whose name appears in the feed
list has its `need_check_feed` flag false. -/
theorem compile_clears_need_check_feed
    (applyPass : String → List (String × List String) → Graph → Graph)
    (graphToProgram : Graph → Block)
    (self : IpuCompiledProgram) (feed_list fetch_list : List String)
    (r : IpuCompileResult)
    (h : IpuCompiledProgram.compile applyPass graphToProgram self
      feed_list fetch_list = .ok r) :
    ∀ v ∈ r.program.globalBlock.vars, v.name ∈ feed_list →
      v.need_check_feed = false := by
  obtain ⟨-, vars0, hvars⟩ := compile_ok_spec applyPass graphToProgram
    self feed_list fetch_list r h
  exact setNeedCheckFeedAll_sets feed_list vars0 _ hvars

/-- Witness for claim C10: a concrete compile with feed list ["x"]
whose result program holds an "x" variable that entered with
`need_check_feed` true; afterwards every "x"-named variable of the
result carries the flag false. -/
theorem compile_clears_need_check_feed_witness :
    ∃ r, IpuCompiledProgram.compile (fun _ _ g => g)
        (fun _ => { ops := [],
                    vars := [{ name := "x", persistable := false,
                               varType := VarType.LOD_TENSOR,
                               is_distributed := false,
                               need_check_feed := true }] })
        sampleIpuCompiled ["x"] [] = .ok r ∧
      ∀ v ∈ r.program.globalBlock.vars, v.name ∈ ["x"] →
        v.need_check_feed = false := by
  refine ⟨_, rfl, ?_⟩
  exact compile_clears_need_check_feed (fun _ _ g => g)
    (fun _ => { ops := [],
                vars := [{ name := "x", persistable := false,
                           varType := VarType.LOD_TENSOR,
                           is_distributed := false,
                           need_check_feed := true }] })
    sampleIpuCompiled ["x"] [] _ rfl

end PaddleCompiler
